import Mathlib

/-!
Shallow embedding of a cost-based TCP request dispatcher written in two
variants: a threaded full-scan dispatcher (load_balancer.py, namespace LB)
and a power-of-two-choices dispatcher (load_balancer_bar.py, namespace Bar).

Modelling conventions: Python integers embed into Int; time.time() values
are modelled as integer timestamps (the claims concern only ordering and
additive structure of the busy-until bookkeeping); byte strings are lists
of Nat; a fallible operation returns an Option, with none standing for the
exception the Python code raises at that point.  The per-backend mutex
blocks execute atomically, so each locked region is one pure state update.
-/

/-- Outcome of the socket exchange with a backend between the reserve and the
release bookkeeping steps: either some reply bytes came back, or the
connection failed mid-flight (reset or timeout) and send/recv raised. -/
inductive NetResult where
  | reply (bs : List Nat)
  | disconnect
deriving DecidableEq

namespace LB

/-- A client job as built by Job.__init__ in load_balancer.py (lines 9-12):
a one-character kind tag and an integer size (the field is named cost). -/
structure Job where
  kind : Char
  cost : Int
deriving DecidableEq

/-- Server kind, asserted to be "V" (video) or "M" (music) in
Server.__init__ (line 16). -/
inductive SKind where
  | V
  | M
deriving DecidableEq

/-- The mutable bookkeeping of one backend in load_balancer.py: the number of
queued jobs, the point in time where the server will be available, and the
server kind (Server.__init__, lines 17-19). -/
structure ServerState where
  queued_jobs : Int
  t_avail : Int
  kind : SKind
deriving DecidableEq

/-- Server.__get_tbusy (lines 27-30): how much longer the server is busy. -/
def get_tbusy (s : ServerState) (now : Int) : Int :=
  if s.queued_jobs = 0 then 0 else s.t_avail - now

/-- Server.__get_job_cost (lines 33-46): the per-job cost on this server. -/
def get_job_cost (kind : SKind) (job : Job) : Int :=
  match kind with
  | .V => if job.kind = 'V' ∨ job.kind = 'P' then job.cost else job.cost * 2
  | .M =>
    if job.kind = 'M' then job.cost
    else if job.kind = 'P' then job.cost * 2
    else job.cost * 3

/-- Server.get_cost (lines 49-53): residual busy time plus per-job cost. -/
def get_cost (s : ServerState) (now : Int) (j : Job) : Int :=
  get_tbusy s now + get_job_cost s.kind j

/-- The first mutex block of Server.send_and_recv (lines 57-62): if this is
the first outstanding job, reset t_avail to now; increment queued_jobs;
advance t_avail by the cost argument the caller passed in. -/
def reserve (s : ServerState) (now : Int) (cost : Int) : ServerState :=
  ⟨s.queued_jobs + 1, (if s.queued_jobs = 0 then now else s.t_avail) + cost, s.kind⟩

/-- The second mutex block of Server.send_and_recv (lines 68-72): decrement
queued_jobs; if it reaches zero, reset t_avail to now. -/
def release (s : ServerState) (now : Int) : ServerState :=
  ⟨s.queued_jobs - 1, if s.queued_jobs - 1 = 0 then now else s.t_avail, s.kind⟩

/-- Server.send_and_recv (lines 56-74).  On a disconnect the socket exception
propagates before the second mutex block is reached; on an empty reply the
assert on line 66 fails: in both cases the release block never runs and
none models the exception.  Only a non-empty reply reaches the release. -/
def send_and_recv (s : ServerState) (tSend tDone : Int) (cost : Int) (net : NetResult) :
    ServerState × Option (List Nat) :=
  match net with
  | .disconnect => (reserve s tSend cost, none)
  | .reply bs =>
    if bs = [] then (reserve s tSend cost, none)
    else (release (reserve s tSend cost) tDone, some bs)

/-- Job parsing on line 109 of load_balancer.py:
Job(chr(msg[0]), int(chr(msg[1]))).  The first byte becomes the kind tag
unconditionally; int(chr(b)) succeeds exactly on an ASCII decimal digit.
none models the uncaught IndexError (short payload) or ValueError
(non-digit size byte) that kills the handler thread. -/
def decode_job (msg : List Nat) : Option Job :=
  match msg with
  | b0 :: b1 :: _ =>
    if 48 ≤ b1 ∧ b1 ≤ 57 then some ⟨Char.ofNat b0, (b1 : Int) - 48⟩ else none
  | _ => none

/-- The selection loop of LoadBalancer.__send_to_servers (lines 110-116):
scan the pool keeping the first backend whose cost is strictly below the
running best; the accumulator carries the index of the current best server
(the code keeps the object itself) and the current best cost. -/
def select_loop (now : Int) (j : Job) :
    List ServerState → Nat → Option Nat → Int → Option Nat × Int
  | [], _, best, best_cost => (best, best_cost)
  | s :: rest, i, best, best_cost =>
    if get_cost s now j < best_cost then
      select_loop now j rest (i + 1) (some i) (get_cost s now j)
    else
      select_loop now j rest (i + 1) best best_cost

/-- LoadBalancer.__send_to_servers, selection part (lines 110-117):
best_server starts as None and best_cost as 2 ** 31. -/
def select_server (servers : List ServerState) (now : Int) (j : Job) :
    Option Nat × Int :=
  select_loop now j servers 0 none (2 ^ 31)

/-- One atomic bookkeeping step on a backend, as performed by a concurrent
send_and_recv call: the reserve block or the release block, tagged with the
timestamp at which it runs and the cost the call carries. -/
inductive Op where
  | reserve (t : Int) (cost : Int)
  | release (t : Int) (cost : Int)
deriving DecidableEq

/-- Interleaved reserve/release blocks of concurrent send_and_recv calls on
one backend, with a ghost list of the in-flight costs; a release step must
match a reserved, not-yet-released job. -/
def run_ops : ServerState → List Int → List Op → Option (ServerState × List Int)
  | s, fl, [] => some (s, fl)
  | s, fl, .reserve t c :: rest => run_ops (reserve s t c) (c :: fl) rest
  | s, fl, .release t c :: rest =>
    if c ∈ fl then run_ops (release s t) (fl.erase c) rest else none

end LB

namespace Bar

/-- Server type tag, validated in Server.__init__ of load_balancer_bar.py
(lines 116-119): only "V" and "M" are accepted. -/
inductive SType where
  | V
  | M
deriving DecidableEq

/-- One backend of load_balancer_bar.py: its type and its current_cost, the
sum of the costs of the requests currently running on it (line 120). -/
structure Server where
  type : SType
  current_cost : Int
deriving DecidableEq

/-- The type-multiplier table of Server.server_cost (lines 134-147); none
models the ValueError raised on an invalid request type. -/
def type_cost (sty : SType) (rty : Char) : Option Int :=
  if rty = 'V' ∨ rty = 'P' ∨ rty = 'M' then
    some
      (match sty with
       | .V => if rty = 'V' ∨ rty = 'P' then 1 else 2
       | .M => if rty = 'M' then 1 else if rty = 'P' then 2 else 3)
  else none

/-- Server.server_cost (lines 124-151): with total the current workload is
added to the per-request cost, otherwise the bare per-request cost. -/
def server_cost (s : Server) (rty : Char) (rlen : Int) (total : Bool) : Option Int :=
  (type_cost s.type rty).map fun tc =>
    if total then s.current_cost + tc * rlen else tc * rlen

/-- Line 161 of load_balancer_bar.py: self.current_cost += request_cost. -/
def step_reserve (s : Server) (c : Int) : Server :=
  ⟨s.type, s.current_cost + c⟩

/-- Line 164 of load_balancer_bar.py: self.current_cost -= request_cost. -/
def step_release (s : Server) (c : Int) : Server :=
  ⟨s.type, s.current_cost - c⟩

/-- Server.request (lines 153-165): compute the bare request cost, add it to
current_cost, send, receive, subtract it, return the response.  On a
disconnect the socket exception propagates and the decrement on line 164
never runs; there is no assert here, so an empty reply still releases. -/
def request (s : Server) (rty : Char) (rlen : Int) (net : NetResult) :
    Server × Option (List Nat) :=
  match server_cost s rty rlen false with
  | none => (s, none)
  | some rc =>
    match net with
    | .disconnect => (step_reserve s rc, none)
    | .reply bs => (step_release (step_reserve s rc) rc, some bs)

/-- Model of the standard-library draw random.sample(range(0, n), 2) on
line 81: two indices below n drawn without replacement, hence distinct.
The randomness is indexed by an abstract seed; the first component is the
first sampled index and the second is adjusted past it so that for n at
least 2 the two indices are distinct and in range. -/
def sample2 (n seed : Nat) : Nat × Nat :=
  (seed % n,
   if seed / n % (n - 1) < seed % n then seed / n % (n - 1)
   else seed / n % (n - 1) + 1)

/-- LoadBalancer.__get_server (lines 73-86): draw two distinct backends and
return server_1 exactly when its total cost is strictly lower, otherwise
server_2 (so a tie deterministically picks the second sampled backend). -/
def get_server (servers : List Server) (rty : Char) (rlen : Int) (seed : Nat) :
    Option Server :=
  match servers.get? (sample2 servers.length seed).1,
        servers.get? (sample2 servers.length seed).2 with
  | some s1, some s2 =>
    match server_cost s1 rty rlen true, server_cost s2 rty rlen true with
    | some c1, some c2 => some (if c1 < c2 then s1 else s2)
    | _, _ => none
  | _, _ => none

/-- Request decoding in LoadBalancer.__handle_request (line 66):
request_type = request[0] and request_length = int(request[1]) — only the
first byte after the tag is ever read, as a single decimal digit; none
models the uncaught exception on a short or non-digit payload. -/
def bar_decode (request : List Nat) : Option (Char × Int) :=
  match request with
  | b0 :: b1 :: _ =>
    if 48 ≤ b1 ∧ b1 ≤ 57 then some (Char.ofNat b0, (b1 : Int) - 48) else none
  | _ => none

/-- Re-encoding of the forwarded request in Server.request (line 162):
the kind tag character followed by the decimal representation of the
length, as bytes. -/
def bar_encode (rty : Char) (rlen : Int) : List Nat :=
  rty.toNat :: (toString rlen).toList.map Char.toNat

/-- One atomic bookkeeping step on a backend of load_balancer_bar.py, as
performed by a concurrent request call: the increment on line 161 or the
decrement on line 164, carrying the request that caused it. -/
inductive Op where
  | reserve (rty : Char) (rlen : Int)
  | release (rty : Char) (rlen : Int)
deriving DecidableEq

/-- The request length carried by a bookkeeping operation. -/
def Op.len : Op → Int
  | .reserve _ l => l
  | .release _ l => l

/-- Interleaved increments and decrements of current_cost by concurrent
request calls on one backend, with a ghost list of the in-flight request
costs; a decrement must match a reserved, not-yet-released request. -/
def run_ops : Server → List Int → List Op → Option (Server × List Int)
  | s, fl, [] => some (s, fl)
  | s, fl, .reserve rty rlen :: rest =>
    match server_cost s rty rlen false with
    | none => none
    | some c => run_ops (step_reserve s c) (c :: fl) rest
  | s, fl, .release rty rlen :: rest =>
    match server_cost s rty rlen false with
    | none => none
    | some c => if c ∈ fl then run_ops (step_release s c) (fl.erase c) rest else none

end Bar

/-- C2: the per-job cost equals the rule-table multiplier times the job size
in both variants — on a VIDEO backend, VIDEO and PRIORITY jobs cost S and
MUSIC jobs cost 2*S; on a MUSIC backend, MUSIC jobs cost S, PRIORITY jobs
cost 2*S and VIDEO jobs cost 3*S — and on the spec's scenario an idle VIDEO
backend prices the job (VIDEO, 10) at 10 while an idle MUSIC backend prices
it at 30. -/
theorem cost_model_rule_table (S cc : Int) :
    LB.get_job_cost .V ⟨'V', S⟩ = S ∧
    LB.get_job_cost .V ⟨'P', S⟩ = S ∧
    LB.get_job_cost .V ⟨'M', S⟩ = 2 * S ∧
    LB.get_job_cost .M ⟨'M', S⟩ = S ∧
    LB.get_job_cost .M ⟨'P', S⟩ = 2 * S ∧
    LB.get_job_cost .M ⟨'V', S⟩ = 3 * S ∧
    Bar.server_cost ⟨.V, cc⟩ 'V' S false = some S ∧
    Bar.server_cost ⟨.V, cc⟩ 'P' S false = some S ∧
    Bar.server_cost ⟨.V, cc⟩ 'M' S false = some (2 * S) ∧
    Bar.server_cost ⟨.M, cc⟩ 'M' S false = some S ∧
    Bar.server_cost ⟨.M, cc⟩ 'P' S false = some (2 * S) ∧
    Bar.server_cost ⟨.M, cc⟩ 'V' S false = some (3 * S) ∧
    LB.get_cost ⟨0, 0, .V⟩ 0 ⟨'V', 10⟩ = 10 ∧
    LB.get_cost ⟨0, 0, .M⟩ 0 ⟨'V', 10⟩ = 30 ∧
    Bar.server_cost ⟨.V, 0⟩ 'V' 10 true = some 10 ∧
    Bar.server_cost ⟨.M, 0⟩ 'V' 10 true = some 30 := by
  refine ⟨rfl, rfl, ?_, rfl, ?_, ?_, ?_, ?_, ?_, ?_, ?_, ?_, by decide, by decide,
    by decide, by decide⟩
  · exact (rfl : LB.get_job_cost .V ⟨'M', S⟩ = S * 2).trans (mul_comm S 2)
  · exact (rfl : LB.get_job_cost .M ⟨'P', S⟩ = S * 2).trans (mul_comm S 2)
  · exact (rfl : LB.get_job_cost .M ⟨'V', S⟩ = S * 3).trans (mul_comm S 3)
  · simp [Bar.server_cost, Bar.type_cost]
  · simp [Bar.server_cost, Bar.type_cost]
  · simp [Bar.server_cost, Bar.type_cost]
  · simp [Bar.server_cost, Bar.type_cost]
  · simp [Bar.server_cost, Bar.type_cost]
  · simp [Bar.server_cost, Bar.type_cost]

/-- C1: the claim says a network failure between the reserve and release
steps still releases the reservation.  The code of both variants has no
try/finally: on a disconnect (and, in load_balancer.py, on an empty reply,
which fails the assert on line 66) the exception propagates before the
release block, leaving the bookkeeping inflated.  Evaluated at a concrete
failing input: an idle LB backend keeps queued_jobs = 1 instead of 0, and
an idle Bar backend keeps current_cost = 5 instead of 0. -/
theorem no_release_on_network_failure :
    ((LB.send_and_recv ⟨0, 100, .V⟩ 100 110 5 .disconnect).1).queued_jobs = 1 ∧
    (⟨0, 100, .V⟩ : LB.ServerState).queued_jobs = 0 ∧
    ((LB.send_and_recv ⟨0, 100, .V⟩ 100 110 5 (.reply [])).1).queued_jobs = 1 ∧
    ((Bar.request ⟨.V, 0⟩ 'V' 5 .disconnect).1).current_cost = 5 ∧
    (⟨.V, 0⟩ : Bar.Server).current_cost = 0 ∧ ¬((1 : Int) = 0) ∧ ¬((5 : Int) = 0) := by
  decide

/-- C4: the claim says the reserve step advances busy_until by exactly the
pure per-job cost.  load_balancer.py instead passes best_cost — the value
of get_cost, residual busy time included — into send_and_recv, which adds
it to t_avail: for a backend with one queued job and 10 units of residual
busy time and a (V, 5) job, the reserve advances t_avail by 15, from 1010
to 1025, while pre-busy-until plus the per-job cost is 1015. -/
theorem reserve_advances_by_total_cost :
    LB.get_cost ⟨1, 1010, .V⟩ 1000 ⟨'V', 5⟩ = 15 ∧
    LB.get_job_cost .V ⟨'V', 5⟩ = 5 ∧
    (LB.reserve ⟨1, 1010, .V⟩ 1000 (LB.get_cost ⟨1, 1010, .V⟩ 1000 ⟨'V', 5⟩)).t_avail = 1025 ∧
    ¬((1025 : Int) = 1010 + 5) := by
  decide

/-- C5 (counterexample): on the load_balancer.py variant, a reserve followed
by the matching release does not return the busy-until bookkeeping to its
pre-reservation value when another job is still outstanding — the release
block never subtracts the cost that the reserve added.  Starting from one
queued job with t_avail = 1010, a successful send_and_recv of cost 15 at
time 1000 ends with t_avail = 1025, not 1010, and residual busy time 25,
not the pre-request 10. -/
theorem roundtrip_claim_counterexample :
    ((LB.send_and_recv ⟨1, 1010, .V⟩ 1000 1000 15 (.reply [1])).1).t_avail = 1025 ∧
    (⟨1, 1010, .V⟩ : LB.ServerState).t_avail = 1010 ∧
    LB.get_tbusy ((LB.send_and_recv ⟨1, 1010, .V⟩ 1000 1000 15 (.reply [1])).1) 1000 = 25 ∧
    LB.get_tbusy ⟨1, 1010, .V⟩ 1000 = 10 ∧ ¬((1025 : Int) = 1010) := by
  decide

/-- C8: the claim says a payload that does not decode to a known kind and
non-negative size fails with MalformedRequest, with the connection closed
and no backend touched.  load_balancer.py never validates the kind byte: a
payload with unknown kind tag 88 ('X') decodes into an ordinary Job that is
then costed (and dispatched) through the else branches of the multiplier
table, and a non-digit size byte merely raises an uncaught ValueError
(modelled as none) that kills the handler thread without reaching the
close() on line 105. -/
theorem malformed_request_not_rejected :
    LB.decode_job [88, 53] = some ⟨'X', 5⟩ ∧
    LB.get_job_cost .V ⟨'X', 5⟩ = 10 ∧
    LB.get_job_cost .M ⟨'X', 5⟩ = 15 ∧
    LB.decode_job [86, 88] = none := by
  decide

/-- C9 (counterexample): the claim says the decoded size is the decimal value
of all the bytes after the kind tag.  Both variants read exactly one size
byte: decoding the request "V12" (bytes 86, 49, 50) yields size 1, not 12,
and re-encoding reproduces "V1", not the original request. -/
theorem codec_multidigit_counterexample :
    Bar.bar_decode [86, 49, 50] = some ('V', 1) ∧ ¬((1 : Int) = 12) ∧
    Bar.bar_encode 'V' 1 = [86, 49] ∧ ¬(([86, 49] : List Nat) = [86, 49, 50]) := by
  refine ⟨rfl, by decide, ?_, by decide⟩
  rfl

/-- C5 (amended): the round-trip law holds for the bookkeeping that the
release step actually updates — in load_balancer_bar.py a successful
request returns current_cost exactly to its pre-reservation value, and in
load_balancer.py a successful send_and_recv returns the outstanding job
count to its pre-reservation value; the busy-until timestamp of
load_balancer.py, however, is not restored in general (see the
counterexample). -/
theorem roundtrip_release_restores :
    (∀ (s : Bar.Server) (rty : Char) (rlen : Int) (bs : List Nat),
        ((Bar.request s rty rlen (.reply bs)).1).current_cost = s.current_cost) ∧
    (∀ (s : LB.ServerState) (t1 t2 cost : Int) (bs : List Nat), ¬(bs = []) →
        ((LB.send_and_recv s t1 t2 cost (.reply bs)).1).queued_jobs = s.queued_jobs) := by
  constructor
  · intro s rty rlen bs
    unfold Bar.request
    cases hc : Bar.server_cost s rty rlen false with
    | none => rfl
    | some rc =>
      show (s.current_cost + rc) - rc = s.current_cost
      omega
  · intro s t1 t2 cost bs hbs
    show ((if bs = [] then (LB.reserve s t1 cost, none)
        else (LB.release (LB.reserve s t1 cost) t2, some bs)).1).queued_jobs
      = s.queued_jobs
    rw [if_neg hbs]
    show (s.queued_jobs + 1) - 1 = s.queued_jobs
    omega

/-- Witness for the round-trip theorem at concrete inputs: a Bar backend with
current_cost 3 and an LB backend with two queued jobs, each after one
successful request. -/
theorem roundtrip_release_restores_witness :
    ((Bar.request ⟨.V, 3⟩ 'V' 2 (.reply [7])).1).current_cost = (3 : Int) ∧
    ((LB.send_and_recv ⟨2, 50, .V⟩ 60 70 9 (.reply [1])).1).queued_jobs = (2 : Int) :=
  ⟨roundtrip_release_restores.1 ⟨.V, 3⟩ 'V' 2 [7],
   roundtrip_release_restores.2 ⟨2, 50, .V⟩ 60 70 9 [1] (by decide)⟩

/-- Helper: the modelled random.sample draw returns two distinct in-range
indices whenever the pool has at least two backends. -/
theorem sample2_distinct (n seed : Nat) (hn : 2 ≤ n) :
    ¬((Bar.sample2 n seed).1 = (Bar.sample2 n seed).2) ∧
    (Bar.sample2 n seed).1 < n ∧ (Bar.sample2 n seed).2 < n := by
  have ha : seed % n < n := Nat.mod_lt _ (by omega)
  have hb : seed / n % (n - 1) < n - 1 := Nat.mod_lt _ (by omega)
  by_cases h : seed / n % (n - 1) < seed % n <;>
    simp [Bar.sample2, h] <;> omega

/-- Helper: server_cost never raises on a valid request type. -/
theorem server_cost_isSome_of_valid (s : Bar.Server) (rty : Char) (rlen : Int)
    (total : Bool) (hty : rty = 'V' ∨ rty = 'P' ∨ rty = 'M') :
    ∃ c, Bar.server_cost s rty rlen total = some c := by
  unfold Bar.server_cost Bar.type_cost
  rw [if_pos hty]
  exact ⟨_, rfl⟩

/-- C7: for every pool of at least two backends, sampled-pair selection draws
two distinct in-range backends — server_1 and server_2 are never the same —
and returns server_1 exactly when its current_load + cost is strictly
lower, otherwise server_2 (so a tie is broken by the deterministic rule
"second sampled wins"). -/
theorem sampled_pair_distinct_min (servers : List Bar.Server) (rty : Char)
    (rlen : Int) (seed : Nat) (hn : 2 ≤ servers.length)
    (hty : rty = 'V' ∨ rty = 'P' ∨ rty = 'M') :
    ∃ s1 s2 c1 c2,
      ¬((Bar.sample2 servers.length seed).1 = (Bar.sample2 servers.length seed).2) ∧
      (Bar.sample2 servers.length seed).1 < servers.length ∧
      (Bar.sample2 servers.length seed).2 < servers.length ∧
      servers.get? (Bar.sample2 servers.length seed).1 = some s1 ∧
      servers.get? (Bar.sample2 servers.length seed).2 = some s2 ∧
      Bar.server_cost s1 rty rlen true = some c1 ∧
      Bar.server_cost s2 rty rlen true = some c2 ∧
      Bar.get_server servers rty rlen seed = some (if c1 < c2 then s1 else s2) := by
  obtain ⟨hne, hlt1, hlt2⟩ := sample2_distinct servers.length seed hn
  have hg1 : servers.get? (Bar.sample2 servers.length seed).1
      = some (servers.get ⟨(Bar.sample2 servers.length seed).1, hlt1⟩) :=
    List.get?_eq_get hlt1
  have hg2 : servers.get? (Bar.sample2 servers.length seed).2
      = some (servers.get ⟨(Bar.sample2 servers.length seed).2, hlt2⟩) :=
    List.get?_eq_get hlt2
  obtain ⟨c1, hc1⟩ := server_cost_isSome_of_valid
    (servers.get ⟨(Bar.sample2 servers.length seed).1, hlt1⟩) rty rlen true hty
  obtain ⟨c2, hc2⟩ := server_cost_isSome_of_valid
    (servers.get ⟨(Bar.sample2 servers.length seed).2, hlt2⟩) rty rlen true hty
  refine ⟨_, _, c1, c2, hne, hlt1, hlt2, hg1, hg2, hc1, hc2, ?_⟩
  simp only [Bar.get_server, hg1, hg2, hc1, hc2]

/-- Witness for the sampled-pair theorem: a two-backend pool (one VIDEO, one
MUSIC), a VIDEO request of length 3 and seed 0. -/
theorem sampled_pair_distinct_min_witness :
    ∃ s1 s2 c1 c2,
      ¬((Bar.sample2 ([⟨.V, 0⟩, ⟨.M, 0⟩] : List Bar.Server).length 0).1
        = (Bar.sample2 ([⟨.V, 0⟩, ⟨.M, 0⟩] : List Bar.Server).length 0).2) ∧
      (Bar.sample2 ([⟨.V, 0⟩, ⟨.M, 0⟩] : List Bar.Server).length 0).1
        < ([⟨.V, 0⟩, ⟨.M, 0⟩] : List Bar.Server).length ∧
      (Bar.sample2 ([⟨.V, 0⟩, ⟨.M, 0⟩] : List Bar.Server).length 0).2
        < ([⟨.V, 0⟩, ⟨.M, 0⟩] : List Bar.Server).length ∧
      ([⟨.V, 0⟩, ⟨.M, 0⟩] : List Bar.Server).get?
        (Bar.sample2 ([⟨.V, 0⟩, ⟨.M, 0⟩] : List Bar.Server).length 0).1 = some s1 ∧
      ([⟨.V, 0⟩, ⟨.M, 0⟩] : List Bar.Server).get?
        (Bar.sample2 ([⟨.V, 0⟩, ⟨.M, 0⟩] : List Bar.Server).length 0).2 = some s2 ∧
      Bar.server_cost s1 'V' 3 true = some c1 ∧
      Bar.server_cost s2 'V' 3 true = some c2 ∧
      Bar.get_server [⟨.V, 0⟩, ⟨.M, 0⟩] 'V' 3 0 = some (if c1 < c2 then s1 else s2) :=
  sampled_pair_distinct_min [⟨.V, 0⟩, ⟨.M, 0⟩] 'V' 3 0 (by decide) (Or.inl rfl)

/-- C9 (amended): for a request of exactly one kind-tag byte and one decimal
size digit, the wire codec of load_balancer_bar.py round-trips — decoding
yields the tag character and the digit value, and re-encoding for the
backend reproduces the original two bytes. -/
theorem codec_single_digit_roundtrip (t d : Nat)
    (ht : t = 86 ∨ t = 80 ∨ t = 77) (hd1 : 48 ≤ d) (hd2 : d ≤ 57) :
    Bar.bar_decode [t, d] = some (Char.ofNat t, (d : Int) - 48) ∧
    Bar.bar_encode (Char.ofNat t) ((d : Int) - 48) = [t, d] := by
  rcases ht with h | h | h <;> subst h <;> interval_cases d <;>
    exact ⟨by decide, by decide⟩

/-- Witness for the codec round-trip at the request "V5" (bytes 86, 53). -/
theorem codec_single_digit_roundtrip_witness :
    Bar.bar_decode [86, 53] = some (Char.ofNat 86, (53 : Int) - 48) ∧
    Bar.bar_encode (Char.ofNat 86) ((53 : Int) - 48) = [86, 53] :=
  codec_single_digit_roundtrip 86 53 (Or.inl rfl) (by decide) (by decide)

/-- Helper invariant of the selection loop of __send_to_servers: the returned
best cost is at most the initial best cost and at most every scanned
backend's cost, and the result is either the untouched accumulator or the
first index attaining the returned cost, which then strictly beats the
initial best cost and every earlier backend. -/
theorem select_loop_spec (now : Int) (j : LB.Job) :
    ∀ (l : List LB.ServerState) (i : Nat) (best : Option Nat) (bc : Int),
      ((LB.select_loop now j l i best bc).2 ≤ bc ∧
        ∀ k, ∀ hk : k < l.length,
          (LB.select_loop now j l i best bc).2 ≤ LB.get_cost (l.get ⟨k, hk⟩) now j) ∧
      (LB.select_loop now j l i best bc = (best, bc) ∨
        ∃ k, ∃ hk : k < l.length,
          (LB.select_loop now j l i best bc).1 = some (i + k) ∧
          (LB.select_loop now j l i best bc).2 = LB.get_cost (l.get ⟨k, hk⟩) now j ∧
          (LB.select_loop now j l i best bc).2 < bc ∧
          ∀ m, ∀ hm : m < l.length, m < k →
            (LB.select_loop now j l i best bc).2 < LB.get_cost (l.get ⟨m, hm⟩) now j) := by
  intro l
  induction l with
  | nil =>
    intro i best bc
    refine ⟨⟨le_refl _, ?_⟩, Or.inl rfl⟩
    intro k hk
    exact absurd hk (by simp)
  | cons s rest ih =>
    intro i best bc
    by_cases hc : LB.get_cost s now j < bc
    · have heq : LB.select_loop now j (s :: rest) i best bc
          = LB.select_loop now j rest (i + 1) (some i) (LB.get_cost s now j) := by
        simp [LB.select_loop, hc]
      obtain ⟨⟨h1, h2⟩, h3⟩ := ih (i + 1) (some i) (LB.get_cost s now j)
      rw [heq]
      refine ⟨⟨le_trans h1 (le_of_lt hc), ?_⟩, ?_⟩
      · intro k hk
        cases k with
        | zero => exact h1
        | succ k => exact h2 k (by simpa using hk)
      · rcases h3 with heq2 | ⟨k, hk, ha, hb, hlt, hfirst⟩
        · right
          refine ⟨0, by simp, ?_, ?_, ?_, ?_⟩
          · rw [heq2]
            simp
          · rw [heq2]
            rfl
          · rw [heq2]
            exact hc
          · intro m hm hm0
            exact absurd hm0 (Nat.not_lt_zero m)
        · right
          refine ⟨k + 1, by simpa using Nat.succ_lt_succ hk, ?_, hb, lt_trans hlt hc, ?_⟩
          · rw [ha]
            exact congrArg some (by omega)
          · intro m hm hmk
            cases m with
            | zero => exact hlt
            | succ m => exact hfirst m (by simpa using hm) (by omega)
    · have heq : LB.select_loop now j (s :: rest) i best bc
          = LB.select_loop now j rest (i + 1) best bc := by
        simp [LB.select_loop, hc]
      obtain ⟨⟨h1, h2⟩, h3⟩ := ih (i + 1) best bc
      rw [heq]
      refine ⟨⟨h1, ?_⟩, ?_⟩
      · intro k hk
        cases k with
        | zero => exact le_trans h1 (le_of_not_lt hc)
        | succ k => exact h2 k (by simpa using hk)
      · rcases h3 with heq2 | ⟨k, hk, ha, hb, hlt, hfirst⟩
        · exact Or.inl heq2
        · right
          refine ⟨k + 1, by simpa using Nat.succ_lt_succ hk, ?_, hb, hlt, ?_⟩
          · rw [ha]
            exact congrArg some (by omega)
          · intro m hm hmk
            cases m with
            | zero => exact lt_of_lt_of_le hlt (le_of_not_lt hc)
            | succ m => exact hfirst m (by simpa using hm) (by omega)

/-- C3 (counterexample): as stated the claim fails, because the loop only
accepts costs strictly below the sentinel 2 ** 31: a non-empty pool whose
single backend has total cost 2 ** 31 + 5 makes the selection return no
backend at all instead of that pool minimum. -/
theorem full_scan_claim_counterexample :
    LB.get_cost ⟨1, 2 ^ 31 + 1000, .V⟩ 1000 ⟨'V', 5⟩ = 2 ^ 31 + 5 ∧
    (LB.select_server [⟨1, 2 ^ 31 + 1000, .V⟩] 1000 ⟨'V', 5⟩).1 = none ∧
    ¬(([⟨1, 2 ^ 31 + 1000, .V⟩] : List LB.ServerState) = []) := by
  decide

/-- C3 (amended): for every pool in which some backend's
current_load + cost is strictly below the 2 ** 31 sentinel, full-scan
selection evaluates get_cost for every backend and returns the backend
whose total cost is minimal, breaking ties in favor of the backend
encountered first in pool order. -/
theorem full_scan_first_min (servers : List LB.ServerState) (now : Int) (j : LB.Job)
    (hex : ∃ s ∈ servers, LB.get_cost s now j < 2 ^ 31) :
    ∃ i, ∃ hi : i < servers.length,
      (LB.select_server servers now j).1 = some i ∧
      (LB.select_server servers now j).2 = LB.get_cost (servers.get ⟨i, hi⟩) now j ∧
      (∀ k, ∀ hk : k < servers.length,
        LB.get_cost (servers.get ⟨i, hi⟩) now j ≤ LB.get_cost (servers.get ⟨k, hk⟩) now j) ∧
      (∀ m, ∀ hm : m < servers.length, m < i →
        LB.get_cost (servers.get ⟨i, hi⟩) now j < LB.get_cost (servers.get ⟨m, hm⟩) now j) := by
  obtain ⟨s, hs, hslt⟩ := hex
  obtain ⟨n, hn⟩ := List.mem_iff_get.mp hs
  rw [← hn] at hslt
  have hss : LB.select_server servers now j
      = LB.select_loop now j servers 0 none (2 ^ 31) := rfl
  obtain ⟨⟨h1, h2⟩, h3⟩ := select_loop_spec now j servers 0 none (2 ^ 31)
  rcases h3 with heq | ⟨k, hk, ha, hb, hlt, hfirst⟩
  · exfalso
    have hle := h2 n.1 n.2
    simp only [Fin.eta] at hle
    rw [heq] at hle
    simp only at hle
    omega
  · refine ⟨k, hk, ?_, ?_, ?_, ?_⟩
    · rw [hss, ha]
      exact congrArg some (Nat.zero_add k)
    · rw [hss]
      exact hb
    · intro k2 hk2
      rw [← hb]
      exact h2 k2 hk2
    · intro m hm hmk
      rw [← hb]
      exact hfirst m hm hmk

/-- Witness for the full-scan theorem: a one-backend idle pool and the job
(V, 5), whose cost 5 is below the sentinel. -/
theorem full_scan_first_min_witness :
    ∃ i, ∃ hi : i < ([⟨0, 0, .V⟩] : List LB.ServerState).length,
      (LB.select_server [⟨0, 0, .V⟩] 0 ⟨'V', 5⟩).1 = some i ∧
      (LB.select_server [⟨0, 0, .V⟩] 0 ⟨'V', 5⟩).2
        = LB.get_cost (([⟨0, 0, .V⟩] : List LB.ServerState).get ⟨i, hi⟩) 0 ⟨'V', 5⟩ ∧
      (∀ k, ∀ hk : k < ([⟨0, 0, .V⟩] : List LB.ServerState).length,
        LB.get_cost (([⟨0, 0, .V⟩] : List LB.ServerState).get ⟨i, hi⟩) 0 ⟨'V', 5⟩
          ≤ LB.get_cost (([⟨0, 0, .V⟩] : List LB.ServerState).get ⟨k, hk⟩) 0 ⟨'V', 5⟩) ∧
      (∀ m, ∀ hm : m < ([⟨0, 0, .V⟩] : List LB.ServerState).length, m < i →
        LB.get_cost (([⟨0, 0, .V⟩] : List LB.ServerState).get ⟨i, hi⟩) 0 ⟨'V', 5⟩
          < LB.get_cost (([⟨0, 0, .V⟩] : List LB.ServerState).get ⟨m, hm⟩) 0 ⟨'V', 5⟩) :=
  full_scan_first_min [⟨0, 0, .V⟩] 0 ⟨'V', 5⟩ ⟨⟨0, 0, .V⟩, by simp, by decide⟩

/-- C10: full-scan selection initializes best_cost to the sentinel 2 ** 31
and only accepts strictly smaller costs, so it returns a backend exactly
when some backend's total cost is strictly below 2 ** 31; when every
backend's total cost is at least the sentinel the result is None and the
assert on line 117 fails even on a non-empty pool (as exhibited by the
full-scan counterexample above). -/
theorem full_scan_sentinel_iff (servers : List LB.ServerState) (now : Int) (j : LB.Job) :
    (LB.select_server servers now j).1.isSome = true ↔
      ∃ s ∈ servers, LB.get_cost s now j < 2 ^ 31 := by
  have hss : LB.select_server servers now j
      = LB.select_loop now j servers 0 none (2 ^ 31) := rfl
  obtain ⟨⟨h1, h2⟩, h3⟩ := select_loop_spec now j servers 0 none (2 ^ 31)
  constructor
  · intro hsome
    rcases h3 with heq | ⟨k, hk, ha, hb, hlt, hfirst⟩
    · rw [hss, heq] at hsome
      simp at hsome
    · refine ⟨servers.get ⟨k, hk⟩, List.get_mem servers k hk, ?_⟩
      rw [← hb]
      exact hlt
  · rintro ⟨s, hs, hslt⟩
    obtain ⟨n, hn⟩ := List.mem_iff_get.mp hs
    rw [← hn] at hslt
    rcases h3 with heq | ⟨k, hk, ha, hb, hlt, hfirst⟩
    · exfalso
      have hle := h2 n.1 n.2
      simp only [Fin.eta] at hle
      rw [heq] at hle
      simp only at hle
      omega
    · rw [hss, ha]
      rfl

/-- Helper: a list of non-negative integers has a non-negative sum. -/
theorem int_sum_nonneg : ∀ (l : List Int), (∀ x ∈ l, 0 ≤ x) → 0 ≤ l.sum := by
  intro l
  induction l with
  | nil => intro _; simp
  | cons a t ih =>
    intro h
    rw [List.sum_cons]
    have ha := h a (List.mem_cons_self a t)
    have ht := ih fun x hx => h x (List.mem_cons_of_mem a hx)
    omega

/-- Helper: erasing a member splits the sum of a list of integers. -/
theorem sum_erase_add (c : Int) (l : List Int) (h : c ∈ l) :
    l.sum = c + (l.erase c).sum := by
  have hperm := List.perm_cons_erase h
  rw [List.Perm.sum_eq hperm, List.sum_cons]

/-- Helper: every multiplier in the type-cost table is positive. -/
theorem type_cost_pos (sty : Bar.SType) (rty : Char) (tc : Int)
    (h : Bar.type_cost sty rty = some tc) : 0 < tc := by
  unfold Bar.type_cost at h
  by_cases hv : rty = 'V' ∨ rty = 'P' ∨ rty = 'M'
  · rw [if_pos hv] at h
    injection h with h
    cases sty <;> dsimp at h <;> split at h <;> omega
  · rw [if_neg hv] at h
    exact absurd h (by simp)

/-- Helper: the bare per-request cost is non-negative whenever the request
length is. -/
theorem server_cost_job_nonneg (s : Bar.Server) (rty : Char) (rlen c : Int)
    (h : Bar.server_cost s rty rlen false = some c) (hl : 0 ≤ rlen) : 0 ≤ c := by
  unfold Bar.server_cost at h
  cases htc : Bar.type_cost s.type rty with
  | none =>
    rw [htc] at h
    exact absurd h (by simp)
  | some tc =>
    rw [htc] at h
    simp at h
    have hpos := type_cost_pos s.type rty tc htc
    rw [← h]
    exact mul_nonneg (le_of_lt hpos) hl

/-- C6: the reservation invariant.  For load_balancer_bar.py, along every
interleaving of reserve/release bookkeeping steps in which each release
matches a reserved, not-yet-released request (of non-negative length),
current_cost always equals the sum of the costs of the in-flight requests
and is never negative; for load_balancer.py, the outstanding job count
queued_jobs always equals the number of in-flight jobs and is never
negative.  By construction of run_ops these quantities change only through
the reserve/release pair. -/
theorem outstanding_cost_invariant :
    (∀ (ops : List Bar.Op) (s s2 : Bar.Server) (fl fl2 : List Int),
        s.current_cost = fl.sum → (∀ x ∈ fl, 0 ≤ x) → (∀ op ∈ ops, 0 ≤ op.len) →
        Bar.run_ops s fl ops = some (s2, fl2) →
        s2.current_cost = fl2.sum ∧ (∀ x ∈ fl2, 0 ≤ x) ∧ 0 ≤ s2.current_cost) ∧
    (∀ (ops : List LB.Op) (s s2 : LB.ServerState) (fl fl2 : List Int),
        s.queued_jobs = (fl.length : Int) →
        LB.run_ops s fl ops = some (s2, fl2) →
        s2.queued_jobs = (fl2.length : Int) ∧ 0 ≤ s2.queued_jobs) := by
  constructor
  · intro ops
    induction ops with
    | nil =>
      intro s s2 fl fl2 hsum hnn hops hrun
      simp [Bar.run_ops] at hrun
      obtain ⟨hs, hf⟩ := hrun
      subst hs
      subst hf
      exact ⟨hsum, hnn, hsum ▸ int_sum_nonneg fl hnn⟩
    | cons op rest ih =>
      intro s s2 fl fl2 hsum hnn hops hrun
      have hoprest : ∀ o ∈ rest, 0 ≤ Bar.Op.len o :=
        fun o ho => hops o (List.mem_cons_of_mem op ho)
      cases op with
      | reserve rty rlen =>
        have hlen : 0 ≤ rlen := hops (.reserve rty rlen) (List.mem_cons_self _ _)
        cases hc : Bar.server_cost s rty rlen false with
        | none =>
          simp only [Bar.run_ops, hc] at hrun
          exact absurd hrun (by simp)
        | some c =>
          simp only [Bar.run_ops, hc] at hrun
          have hc0 : 0 ≤ c := server_cost_job_nonneg s rty rlen c hc hlen
          refine ih _ _ _ _ ?_ ?_ hoprest hrun
          · show s.current_cost + c = (c :: fl).sum
            rw [List.sum_cons, hsum]
            omega
          · intro x hx
            rcases List.mem_cons.mp hx with h | h
            · rw [h]
              exact hc0
            · exact hnn x h
      | release rty rlen =>
        cases hc : Bar.server_cost s rty rlen false with
        | none =>
          simp only [Bar.run_ops, hc] at hrun
          exact absurd hrun (by simp)
        | some c =>
          simp only [Bar.run_ops, hc] at hrun
          by_cases hmem : c ∈ fl
          · rw [if_pos hmem] at hrun
            refine ih _ _ _ _ ?_ ?_ hoprest hrun
            · show s.current_cost - c = (fl.erase c).sum
              have hsplit := sum_erase_add c fl hmem
              omega
            · intro x hx
              exact hnn x (List.mem_of_mem_erase hx)
          · rw [if_neg hmem] at hrun
            exact absurd hrun (by simp)
  · intro ops
    induction ops with
    | nil =>
      intro s s2 fl fl2 hsum hrun
      simp [LB.run_ops] at hrun
      obtain ⟨hs, hf⟩ := hrun
      subst hs
      subst hf
      refine ⟨hsum, ?_⟩
      rw [hsum]
      exact Int.natCast_nonneg _
    | cons op rest ih =>
      intro s s2 fl fl2 hsum hrun
      cases op with
      | reserve t c =>
        simp only [LB.run_ops] at hrun
        refine ih _ _ _ _ ?_ hrun
        show s.queued_jobs + 1 = ((c :: fl).length : Int)
        rw [List.length_cons]
        omega
      | release t c =>
        simp only [LB.run_ops] at hrun
        by_cases hmem : c ∈ fl
        · rw [if_pos hmem] at hrun
          refine ih _ _ _ _ ?_ hrun
          show s.queued_jobs - 1 = ((fl.erase c).length : Int)
          rw [List.length_erase_of_mem hmem]
          have hpos : 0 < fl.length := List.length_pos_of_mem hmem
          omega
        · rw [if_neg hmem] at hrun
          exact absurd hrun (by simp)

/-- Witness for the invariant theorem: one reserve/release pair on an idle
backend of each variant. -/
theorem outstanding_cost_invariant_witness :
    ((⟨.V, 0⟩ : Bar.Server).current_cost = ([] : List Int).sum ∧
      (∀ x ∈ ([] : List Int), 0 ≤ x) ∧ 0 ≤ (⟨.V, 0⟩ : Bar.Server).current_cost) ∧
    ((⟨0, 20, .V⟩ : LB.ServerState).queued_jobs = (([] : List Int).length : Int) ∧
      0 ≤ (⟨0, 20, .V⟩ : LB.ServerState).queued_jobs) :=
  ⟨outstanding_cost_invariant.1 [.reserve 'V' 2, .release 'V' 2] ⟨.V, 0⟩ ⟨.V, 0⟩ [] []
      rfl (by simp) (by decide) (by decide),
   outstanding_cost_invariant.2 [.reserve 10 5, .release 20 5] ⟨0, 0, .V⟩ ⟨0, 20, .V⟩ [] []
      (by decide) (by decide)⟩
